import Mathlib

/-
Verification of the laitos maintenance daemon and DNS blacklist modules.

The Go sources are embedded shallowly:
* machine integers become Int or Nat;
* Go strings become Lean String (or List Char where character-level
  manipulation is required, as in the hosts-file parser);
* fallible operations return Except or Option;
* the side effects of the maintenance loop (timers, channels, the
  atomic running flag) become explicit state passing, and wall-clock
  time becomes a Nat parameter measured in seconds.
-/

namespace Laitos

/-! ## Constants from maintenance.go -/

/-- TCPPortCheckTimeoutSec from maintenance.go. -/
def TCPPortCheckTimeoutSec : Int := 10

/-- MinimumIntervalSec from maintenance.go: lowest acceptable maintenance interval. -/
def MinimumIntervalSec : Int := 3600

/-! ## Daemon.Initialise

Embeds:

```go
func (daemon *Daemon) Initialise() error {
    if daemon.IntervalSec < 1 {
        daemon.IntervalSec = 24 * 3600
    } else if daemon.IntervalSec < MinimumIntervalSec {
        return fmt.Errorf(...)
    }
    ...
    return nil
}
```

The function returns the updated IntervalSec on success. -/

/-- Daemon.Initialise from maintenance.go, restricted to its effect on
IntervalSec: values below 1 default to 24 hours, values in [1, 3600) are
rejected, larger values are kept. -/
def Initialise (intervalSec : Int) : Except String Int :=
  if intervalSec < 1 then
    Except.ok (24 * 3600)
  else if intervalSec < MinimumIntervalSec then
    Except.error "maintenance.StartAndBlock: IntervalSec must be at or above 3600"
  else
    Except.ok intervalSec

/-! ## Clock-skew clamp at the end of Daemon.SystemMaintenance

Embeds:

```go
if misc.StartupTime.After(time.Now()) {
    misc.StartupTime = time.Now().Add(-MinimumIntervalSec * time.Second)
}
```

Instants are Unix seconds as Int. time.After is a strict comparison. -/

/-- The StartupTime correction performed at the end of SystemMaintenance:
if the recorded startup instant lies strictly after the current time,
it is replaced by the current time minus MinimumIntervalSec. -/
def clampStartupTime (startupTime now : Int) : Int :=
  if now < startupTime then now - MinimumIntervalSec else startupTime

/-! ## Emergency lockdown and Stop

Embeds the top of Daemon.StartAndBlock:

```go
for {
    if misc.EmergencyLockDown {
        atomic.StoreInt32(&daemon.loopIsRunning, 0)
        return misc.ErrEmergencyLockDown
    }
    atomic.StoreInt32(&daemon.loopIsRunning, 1)
    ...
}
```

and Daemon.Stop:

```go
func (daemon *Daemon) Stop() {
    if atomic.CompareAndSwapInt32(&daemon.loopIsRunning, 1, 0) {
        daemon.stop <- true
    }
}
```

The loopIsRunning int32 is a Bool; the channel send is recorded as a
Bool result of Stop. -/

/-- Outcome of one pass over the head of the StartAndBlock loop. -/
inductive LoopExit where
  | lockdownErr : LoopExit
deriving DecidableEq

/-- The check at the top of the StartAndBlock for-loop: when
EmergencyLockDown is set, store 0 into loopIsRunning and return the
lockdown sentinel; otherwise store 1 and continue (no exit). The result
pairs the new value of loopIsRunning with the exit, if any. -/
def startAndBlockTop (emergencyLockDown : Bool) : Bool × Option LoopExit :=
  if emergencyLockDown then (false, some LoopExit.lockdownErr)
  else (true, none)

/-- Daemon.Stop: compare-and-swap loopIsRunning from 1 to 0; on success
send on the stop channel. Returns the new loopIsRunning value and
whether a value was sent on the channel. -/
def stopDaemon (loopIsRunning : Bool) : Bool × Bool :=
  if loopIsRunning then (false, true) else (loopIsRunning, false)

/-! ## The maintenance schedule of Daemon.StartAndBlock

Embeds the timer logic:

```go
nextRunAt := time.Now().Add(10 * time.Minute)
for {
    ...
    select {
    case <-daemon.stop: ...
    case <-time.After(time.Until(nextRunAt)):
        nextRunAt = nextRunAt.Add(time.Duration(daemon.IntervalSec) * time.Second)
        daemon.Execute()
    }
}
```

Time is Nat seconds. t0 is the instant StartAndBlock is entered, dur k
is the wall-clock duration of the k-th Execute. time.After of a
negative or zero duration fires immediately, so the k-th Execute starts
at the later of its scheduled instant and the finish of run k-1. -/

/-- The value nextRunAt holds when the k-th wait begins: ten minutes
after start, then advanced by intervalSec after each run (from its own
previous value, never from the current time). -/
def schedAt (t0 intervalSec : Nat) : Nat → Nat
  | 0 => t0 + 600
  | k + 1 => schedAt t0 intervalSec k + intervalSec

/-- The instant the k-th Execute starts. The first wait begins at t0;
every later wait begins when the previous Execute finishes; time.After
fires at the scheduled instant, or immediately if that instant has
already passed. -/
def startAt (t0 intervalSec : Nat) (dur : Nat → Nat) : Nat → Nat
  | 0 => max (schedAt t0 intervalSec 0) t0
  | k + 1 => max (schedAt t0 intervalSec (k + 1)) (startAt t0 intervalSec dur k + dur k)

/-! ## Go string primitives

Strings are modelled at character level as List Char. Hosts files are
ASCII, so strings.TrimSpace is modelled over the ASCII whitespace
characters recognised by unicode.IsSpace. -/

/-- The ASCII characters recognised by Go's unicode.IsSpace. -/
def isSpaceChar (c : Char) : Bool :=
  c == ' ' || c == '\t' || c == '\n' || c == '\x0b' || c == '\x0c' || c == '\r'

/-- strings.TrimSpace: drop whitespace from both ends. -/
def trimSpace (l : List Char) : List Char :=
  ((l.dropWhile isSpaceChar).reverse.dropWhile isSpaceChar).reverse

/-! ## ExtractNamesFromHostsContent (daemon/dnsd/blacklist.go)

Embeds:

```go
func ExtractNamesFromHostsContent(content string) []string {
    ret := make([]string, 0, 16384)
    for _, line := range strings.Split(content, "\n") {
        line = strings.TrimSpace(line)
        if len(line) == 0 || line[0] == '#' { continue }
        space := strings.IndexRune(line, ' ')
        if space == -1 { continue }
        line = strings.TrimSpace(line[space:])
        nameEnd := strings.IndexRune(line, '#')
        if nameEnd == -1 { nameEnd = len(line) }
        aName := strings.ToLower(strings.TrimSpace(line[:nameEnd]))
        if aName == "" || strings.HasSuffix(aName, "localhost") ||
           strings.HasSuffix(aName, "localdomain") || len(aName) < 4 { continue }
        ret = append(ret, aName)
    }
    return ret
}
```

line[space:] is the suffix of the line starting at its first space
character, i.e. dropWhile (c not space); IndexRune returning -1 means
that suffix is empty. line[:nameEnd] is takeWhile (c not the hash). -/

/-- The rejection test applied to a candidate name: empty, suffix
localhost, suffix localdomain, or shorter than 4 characters. -/
def rejectName (aName : List Char) : Bool :=
  aName.isEmpty || "localhost".toList.isSuffixOf aName ||
    "localdomain".toList.isSuffixOf aName || decide (aName.length < 4)

/-- Processing of one line of a hosts file by
ExtractNamesFromHostsContent; returns the extracted name, when the line
yields one. -/
def extractName (line : List Char) : Option (List Char) :=
  let line1 := trimSpace line
  if line1.isEmpty then none
  else if line1.headD ' ' == '#' then none
  else
    let fromSpace := line1.dropWhile (fun c => !(c == ' '))
    if fromSpace.isEmpty then none
    else
      let line2 := trimSpace fromSpace
      let beforeHash := line2.takeWhile (fun c => !(c == '#'))
      let aName := (trimSpace beforeHash).map Char.toLower
      if rejectName aName then none else some aName

/-- ExtractNamesFromHostsContent from daemon/dnsd/blacklist.go. -/
def ExtractNamesFromHostsContent (content : List Char) : List (List Char) :=
  (content.splitOn '\n').filterMap extractName

/-! ## DownloadAllBlacklists and UniqueStrings (daemon/dnsd/blacklist.go)

The network download of each URL is abstracted to the body it returns,
so DownloadAllBlacklists takes the list of per-URL response bodies. A
Go nil slice is Option.none. Go collects unique strings through a
map[string]struct{} whose iteration order is unspecified; the model
keeps keys in first-insertion order, which fixes one of the admissible
orders and determines the same key set. -/

/-- One insertion of str as a key of the uniqueness map m. -/
def insertUnique (m : List (List Char)) (str : List Char) : List (List Char) :=
  if str ∈ m then m else m ++ [str]

/-- Processing of one input array by UniqueStrings: nil arrays are
skipped, the elements of the others are inserted into the map. -/
def insertArray (m : List (List Char)) (array : Option (List (List Char))) : List (List Char) :=
  match array with
  | none => m
  | some a => a.foldl insertUnique m

/-- UniqueStrings from daemon/dnsd/blacklist.go: the distinct strings
occurring in the non-nil input arrays. -/
def UniqueStrings (arrays : List (Option (List (List Char)))) : List (List Char) :=
  arrays.foldl insertArray []

/-- DownloadAllBlacklists from daemon/dnsd/blacklist.go, per-URL
download abstracted to its body. The source parses every body twice:
once for the log message and once for the stored list; the first
result is bound and discarded here exactly as there. -/
def DownloadAllBlacklists (bodies : List (List Char)) : List (List Char) :=
  UniqueStrings (bodies.map (fun body =>
    let _names := ExtractNamesFromHostsContent body
    some (ExtractNamesFromHostsContent body)))

/-- Variant of DownloadAllBlacklists that parses each body once. -/
def DownloadAllBlacklistsOnce (bodies : List (List Char)) : List (List Char) :=
  UniqueStrings (bodies.map (fun body => some (ExtractNamesFromHostsContent body)))

/-! ## Substring containment (strings.Contains, report inspection) -/

/-- The substring sub occurs contiguously in s. -/
def StrContains (s sub : String) : Prop :=
  sub.data <:+: s.data

instance (s sub : String) : Decidable (StrContains s sub) := by
  unfold StrContains
  infer_instance

/-- strings.Contains from the Go standard library. -/
def goContains (s sub : String) : Bool :=
  decide (StrContains s sub)

/-! ## Output suppression in Daemon.SystemMaintenance

Embeds:

```go
suppressOutputMarkers := []string{"No packages marked for update", "Nothing to do",
    "0 upgraded, 0 newly installed", "Unable to locate"}
// system upgrade:
for _, marker := range suppressOutputMarkers {
    if strings.Contains(result, marker) { result = "skipped"; break }
}
// per-package install:
for _, marker := range suppressOutputMarkers {
    if strings.Contains(result, marker) { result = "Nothing to do"; break }
}
```
-/

/-- The markers that cause package-manager output to be suppressed. -/
def suppressOutputMarkers : List String :=
  ["No packages marked for update", "Nothing to do",
    "0 upgraded, 0 newly installed", "Unable to locate"]

/-- The marker scan: replace result by repl on the first marker
contained in it. -/
def suppressLoop : List String → String → String → String
  | [], _, result => result
  | marker :: rest, repl, result =>
    if goContains result marker then repl else suppressLoop rest repl result

/-- Collapsing of the system-upgrade output (maintenance.go line 347):
the replacement is the word skipped. -/
def collapseUpgradeOutput (result : String) : String :=
  suppressLoop suppressOutputMarkers "skipped" result

/-- Collapsing of the per-package installation output (maintenance.go
line 400): the replacement is the phrase Nothing to do. -/
def collapseInstallOutput (result : String) : String :=
  suppressLoop suppressOutputMarkers "Nothing to do" result

/-! ## Daemon.Execute (maintenance.go)

The four checks run concurrently and join before the report is
composed, so Execute is a function of their four outcomes (checks that
are not configured yield nil). Each outcome is Option String: none for
a nil error, some e for an error rendered as e. The runtime strings
(GetRuntimeInfo, GetLatestStats, the maintenance output, warnings,
logs, stack traces) are parameters. The source returns
inet.LintMailBody(result); that function is not part of this
repository snapshot and the spec describes the report as the composed
buffer, so it is modelled from the spec as the identity. -/

/-- The ports line of the report. -/
def portsSegment : Option String → String
  | none => "\nPorts: OK\n"
  | some e => "\nPort errors: " ++ e ++ "\n"

/-- The features line of the report. -/
def featuresSegment : Option String → String
  | none => "\nFeatures: OK\n"
  | some e => "\nFeature errors: " ++ e ++ "\n"

/-- The mail processor line of the report. -/
def mailSegment : Option String → String
  | none => "\nMail processor: OK\n"
  | some e => "\nMail processor errors: " ++ e ++ "\n"

/-- The HTTP handlers line of the report. -/
def httpSegment : Option String → String
  | none => "\nHTTP handlers: OK\n"
  | some e => "\nHTTP handler errors: " ++ e ++ "\n"

/-- Daemon.Execute: the composed report and the allOK flag. -/
def ExecuteReport (portsErr featureErr mailCmdRunnerErr httpHandlersErr : Option String)
    (maintResult runtimeInfo latestStats warnings logs stacktraces : String) :
    String × Bool :=
  let allOK := portsErr.isNone && featureErr.isNone &&
    mailCmdRunnerErr.isNone && httpHandlersErr.isNone
  ((if allOK then "All OK\n" else "There are errors!!!\n")
    ++ runtimeInfo
    ++ "\nDaemon stats - low/avg/high/total seconds and (count):\n"
    ++ latestStats
    ++ (portsSegment portsErr
    ++ (featuresSegment featureErr
    ++ (mailSegment mailCmdRunnerErr
    ++ (httpSegment httpHandlersErr
    ++ ("\nSystem maintenance:\n" ++ maintResult
    ++ ("\nWarnings:\n" ++ warnings
    ++ ("\nLogs:\n" ++ logs
    ++ ("\nStack traces:\n" ++ stacktraces)))))))),
    allOK)

/-! ## FeatureSet.Initialise (feature package)

A feature is abstracted to the interface used by FeatureSet.Initialise:
its trigger, whether it is configured, and whether its Initialise call
returns nil. The prefixes map of the six features is a list of
trigger-feature pairs; the lookup table is an association list into
which insertion overwrites an existing key, as for a Go map. -/

/-- The feature interface as seen by FeatureSet.Initialise. -/
structure Feature where
  trigger : String
  isConfigured : Bool
  initOK : Bool
deriving DecidableEq

/-- Insertion into the LookupByPrefix map: overwrite any entry with the
same trigger. -/
def mapInsert (table : List (String × Feature)) (k : String) (v : Feature) :
    List (String × Feature) :=
  table.filter (fun p => !(p.1 == k)) ++ [(k, v)]

/-- The range loop of FeatureSet.Initialise: configured features are
initialised and added to the table; a failing Initialise aborts the
loop with an error, keeping the entries added so far; unconfigured
features are skipped. The Bool is true when no error occurred. -/
def initialiseFeatures : List (String × Feature) → List (String × Feature) →
    List (String × Feature) × Bool
  | [], table => (table, true)
  | (t, f) :: rest, table =>
    if f.isConfigured then
      if f.initOK then initialiseFeatures rest (mapInsert table t f)
      else (table, false)
    else initialiseFeatures rest table

/-- FeatureSet.Initialise: start from the empty LookupByPrefix table
and process the prefixes map. -/
def FeatureSetInitialise (prefixes : List (String × Feature)) :
    List (String × Feature) × Bool :=
  initialiseFeatures prefixes []

/-! ## Daemon.runPortsCheck (maintenance.go)

CheckTCPPorts is Option, none for a nil map. The network dial is
abstracted to the oracle dialOK; the result pairs the list of
destinations actually dialed with the error: none when no dial failed,
otherwise the list of failed destinations. Hosts whose name is empty
or whose port list is empty are skipped; port 25 is skipped entirely
on GCE and Azure. -/

/-- Daemon.runPortsCheck. -/
def runPortsCheck (checkTCPPorts : Option (List (String × List Int)))
    (isGCE isAzure : Bool) (dialOK : String → Int → Bool) :
    List (String × Int) × Option (List (String × Int)) :=
  match checkTCPPorts with
  | none => ([], none)
  | some m =>
    let dialed := m.flatMap (fun hp =>
      if hp.1 == "" || hp.2.isEmpty then []
      else hp.2.filterMap (fun port =>
        if port == 25 && (isGCE || isAzure) then none
        else some (hp.1, port)))
    let portErrs := dialed.filter (fun d => !(dialOK d.1 d.2))
    (dialed, if portErrs.isEmpty then none else some portErrs)

end Laitos

/-! # Theorems -/

namespace Laitos

/-- C5: Initialise errors exactly when 1 ≤ IntervalSec < 3600; a value
at most 0 is replaced by 86400 with no error; a value at least 3600 is
kept unchanged with no error. -/
theorem C5_initialise_interval (i : Int) :
    ((∃ e, Initialise i = Except.error e) ↔ (1 ≤ i ∧ i < 3600)) ∧
    (i ≤ 0 → Initialise i = Except.ok 86400) ∧
    (3600 ≤ i → Initialise i = Except.ok i) := by
  refine ⟨⟨?_, ?_⟩, ?_, ?_⟩
  · rintro ⟨e, he⟩
    unfold Initialise at he
    split at he
    · cases he
    · split at he
      · rename_i h1 h2
        exact ⟨by omega, by simpa [MinimumIntervalSec] using h2⟩
      · cases he
  · rintro ⟨h1, h2⟩
    refine ⟨"maintenance.StartAndBlock: IntervalSec must be at or above 3600", ?_⟩
    unfold Initialise
    rw [if_neg (by omega), if_pos (by simp [MinimumIntervalSec]; omega)]
  · intro h
    unfold Initialise
    rw [if_pos (by omega)]
    norm_num
  · intro h
    unfold Initialise
    rw [if_neg (by omega), if_neg (by simp [MinimumIntervalSec]; omega)]

/-- Witness for C5 at IntervalSec = 0 and IntervalSec = 7200. -/
theorem C5_initialise_interval_witness :
    Initialise 0 = Except.ok 86400 ∧ Initialise 7200 = Except.ok 7200 :=
  ⟨(C5_initialise_interval 0).2.1 (by decide),
   (C5_initialise_interval 7200).2.2 (by decide)⟩

/-- C8: after the clock-skew correction of SystemMaintenance, the
startup time never lies in the future: when StartupTime was after the
current instant it becomes now minus MinimumIntervalSec, otherwise it
is unchanged; in both cases the result is at most now. -/
theorem C8_startup_time_clamp (startupTime now : Int) :
    (now < startupTime → clampStartupTime startupTime now = now - MinimumIntervalSec) ∧
    (startupTime ≤ now → clampStartupTime startupTime now = startupTime) ∧
    clampStartupTime startupTime now ≤ now := by
  refine ⟨?_, ?_, ?_⟩
  · intro h; simp [clampStartupTime, h]
  · intro h; simp [clampStartupTime, not_lt.mpr h]
  · unfold clampStartupTime
    split
    · simp only [MinimumIntervalSec]; omega
    · omega

/-- Witness for C8 at StartupTime = 5000, now = 100 and at
StartupTime = 100, now = 5000. -/
theorem C8_startup_time_clamp_witness :
    clampStartupTime 5000 100 = 100 - MinimumIntervalSec ∧
    clampStartupTime 100 5000 = 100 :=
  ⟨(C8_startup_time_clamp 5000 100).1 (by decide),
   (C8_startup_time_clamp 100 5000).2.1 (by decide)⟩

/-- C4: whenever EmergencyLockDown is observed at the top of the
maintenance loop, the loop stores 0 into the running flag and exits
with the lockdown sentinel; and Stop called while the loop is not
running changes nothing and sends nothing on the stop channel. -/
theorem C4_lockdown_and_stop :
    startAndBlockTop true = (false, some LoopExit.lockdownErr) ∧
    stopDaemon false = (false, false) := by
  constructor <;> rfl

/-- Auxiliary: closed form of the nextRunAt sequence. -/
theorem schedAt_closed (t0 i : Nat) : ∀ k, schedAt t0 i k = t0 + 600 + k * i := by
  intro k
  induction k with
  | zero => simp [schedAt]
  | succ k ih => simp [schedAt, ih, Nat.succ_mul]; ring

/-- C3 counterexample: with IntervalSec = 3600 and a first run lasting
4000 seconds, run 0 (starting at t0+600) overlaps the tick scheduled at
t0+4200, yet the next Execute starts at t0+4600 — immediately when run 0
finishes and strictly before the following tick at t0+7800. The
overlapped tick is executed late, not elided. -/
theorem C3_counterexample :
    schedAt 0 3600 1 <
      startAt 0 3600 (fun k => if k = 0 then 4000 else 0) 0 +
        (fun k : Nat => if k = 0 then 4000 else 0) 0 ∧
    startAt 0 3600 (fun k => if k = 0 then 4000 else 0) 1 = 4600 ∧
    startAt 0 3600 (fun k => if k = 0 then 4000 else 0) 1 < schedAt 0 3600 2 := by
  refine ⟨?_, ?_, ?_⟩ <;> decide

/-- C3 amended: the first Execute fires 10 minutes after start; the
nextRunAt sequence advances by IntervalSec from its own previous value
(so the schedule does not drift), and as long as no run exceeds
IntervalSec the k-th Execute starts exactly at t0 + 600 + k·IntervalSec;
but a tick overlapped by a slow run is not elided — the next Execute
fires immediately when the previous run finishes. -/
theorem C3_schedule (t0 i : Nat) (dur : Nat → Nat) :
    (∀ k, schedAt t0 i k = t0 + 600 + k * i) ∧
    startAt t0 i dur 0 = t0 + 600 ∧
    (∀ k, startAt t0 i dur (k + 1) =
      max (schedAt t0 i (k + 1)) (startAt t0 i dur k + dur k)) ∧
    (∀ k, (∀ j, j < k → dur j ≤ i) → startAt t0 i dur k = t0 + 600 + k * i) := by
  refine ⟨schedAt_closed t0 i, ?_, fun k => rfl, ?_⟩
  · show max (schedAt t0 i 0) t0 = t0 + 600
    simp [schedAt]
  · intro k
    induction k with
    | zero =>
      intro _
      show max (schedAt t0 i 0) t0 = t0 + 600 + 0 * i
      simp [schedAt]
    | succ k ih =>
      intro hdur
      have hk : startAt t0 i dur k = t0 + 600 + k * i :=
        ih (fun j hj => hdur j (Nat.lt_succ_of_lt hj))
      show max (schedAt t0 i (k + 1)) (startAt t0 i dur k + dur k) = t0 + 600 + (k + 1) * i
      rw [hk, schedAt_closed t0 i (k + 1)]
      have hdk : dur k ≤ i := hdur k (Nat.lt_succ_self k)
      rw [max_eq_left (by rw [Nat.succ_mul]; omega)]

/-- Witness for C3 amended: with IntervalSec 3600 and every run of
duration 0, the second Execute starts exactly at t0 + 600 + 2·3600. -/
theorem C3_schedule_witness :
    startAt 0 3600 (fun _ => 0) 2 = 0 + 600 + 2 * 3600 :=
  (C3_schedule 0 3600 (fun _ => 0)).2.2.2 2 (fun j _ => by simp)

/-! ## Hosts-file extraction lemmas -/

/-- Auxiliary: dropWhile leaves a list whose elements all fail the
predicate untouched. -/
theorem dropWhile_all_false {α : Type} {p : α → Bool} :
    ∀ l : List α, (∀ c ∈ l, p c = false) → l.dropWhile p = l := by
  intro l h
  induction l with
  | nil => rfl
  | cons a t ih =>
    rw [List.dropWhile_cons, if_neg (by simp [h a (by simp)])]

/-- Auxiliary: dropWhile leaves an append untouched when the left part
is nonempty and all of its elements fail the predicate. -/
theorem dropWhile_append_false {α : Type} {p : α → Bool} (l₁ l₂ : List α)
    (h₁ : l₁ ≠ []) (hall : ∀ c ∈ l₁, p c = false) :
    (l₁ ++ l₂).dropWhile p = l₁ ++ l₂ := by
  obtain ⟨a, t, rfl⟩ := List.exists_cons_of_ne_nil h₁
  rw [List.cons_append, List.dropWhile_cons, if_neg (by simp [hall a (by simp)])]

/-- Auxiliary: dropWhile consumes an entire left part whose elements
all satisfy the predicate. -/
theorem dropWhile_append_true {α : Type} {p : α → Bool} :
    ∀ (l₁ l₂ : List α), (∀ c ∈ l₁, p c = true) → (l₁ ++ l₂).dropWhile p = l₂.dropWhile p := by
  intro l₁
  induction l₁ with
  | nil => intro l₂ _; rfl
  | cons a t ih =>
    intro l₂ h
    rw [List.cons_append, List.dropWhile_cons, if_pos (h a (by simp))]
    exact ih l₂ (fun c hc => h c (by simp [hc]))

/-- Auxiliary: trimSpace leaves a list whose elements are all
non-whitespace untouched. -/
theorem trimSpace_all_nonspace (l : List Char) (h : ∀ c ∈ l, isSpaceChar c = false) :
    trimSpace l = l := by
  unfold trimSpace
  rw [dropWhile_all_false l h,
    dropWhile_all_false l.reverse (fun c hc => h c (List.mem_reverse.mp hc)),
    List.reverse_reverse]

/-- Auxiliary: evaluation of extractName on a well-formed hosts line
consisting of a leading token, a single space and a candidate name,
where neither part contains whitespace or a hash character. The line is
accepted or rejected according to rejectName on the lowercased name. -/
theorem extractName_structured (ip name : List Char) (hip : ip ≠ [])
    (hipc : ∀ c ∈ ip, isSpaceChar c = false ∧ c ≠ '#')
    (hname : name ≠ [])
    (hnamec : ∀ c ∈ name, isSpaceChar c = false ∧ c ≠ '#') :
    extractName (ip ++ ' ' :: name) =
      if rejectName (name.map Char.toLower) then none
      else some (name.map Char.toLower) := by
  obtain ⟨i0, ip', rfl⟩ := List.exists_cons_of_ne_nil hip
  have hi0 := hipc i0 (by simp)
  have hnrev : name.reverse ≠ [] := by simpa using hname
  have hA : trimSpace ((i0 :: ip') ++ ' ' :: name) = (i0 :: ip') ++ ' ' :: name := by
    unfold trimSpace
    rw [dropWhile_append_false _ _ (by simp) (fun c hc => (hipc c hc).1)]
    have hrev : ((i0 :: ip') ++ ' ' :: name).reverse =
        name.reverse ++ (' ' :: (i0 :: ip').reverse) := by
      simp
    rw [hrev,
      dropWhile_append_false _ _ hnrev (fun c hc => (hnamec c (List.mem_reverse.mp hc)).1),
      ← hrev, List.reverse_reverse]
  have hdropSp : ((i0 :: ip') ++ ' ' :: name).dropWhile (fun c => !(c == ' ')) =
      ' ' :: name := by
    rw [dropWhile_append_true _ _ (fun c hc => by
      have hc1 := (hipc c hc).1
      simp only [Bool.not_eq_true']
      rw [beq_eq_false_iff_ne]
      intro he
      subst he
      simp [isSpaceChar] at hc1)]
    rw [List.dropWhile_cons, if_neg (by simp)]
  have htrim2 : trimSpace (' ' :: name) = name := by
    unfold trimSpace
    have e1 : (' ' :: name).dropWhile isSpaceChar = name.dropWhile isSpaceChar := by
      rw [List.dropWhile_cons, if_pos (by simp [isSpaceChar])]
    rw [e1, dropWhile_all_false name (fun c hc => (hnamec c hc).1),
      dropWhile_all_false name.reverse
        (fun c hc => (hnamec c (List.mem_reverse.mp hc)).1),
      List.reverse_reverse]
  have htake : name.takeWhile (fun c => !(c == '#')) = name :=
    List.takeWhile_eq_self_iff.mpr (fun c hc => by simp [(hnamec c hc).2])
  have htn : trimSpace name = name :=
    trimSpace_all_nonspace name (fun c hc => (hnamec c hc).1)
  simp only [extractName]
  rw [hA, hdropSp, htrim2, htake, htn]
  simp [hi0.2]

/-- C2 counterexample: the line 0.0.0.0 TAB advert.example.com uses a
tab as the whitespace separating the IP token from the domain; the
domain is 18 characters long, is not a localhost or localdomain name,
yet the extractor returns nothing, because it looks only for a space
character (U+0020). -/
theorem C2_counterexample :
    ExtractNamesFromHostsContent ("0.0.0.0\tadvert.example.com").toList = [] ∧
    ExtractNamesFromHostsContent ("0.0.0.0\tadvert.example.com").toList ≠
      [("advert.example.com").toList] := by
  constructor <;> decide

/-- C2 amended: on a line of the form token-space-name, where the token
and the name are nonempty and free of whitespace and hash characters,
extraction returns the lowercased name unless it is rejected (empty,
suffix localhost, suffix localdomain, or shorter than 4 characters);
blank lines, comment lines and lines without any space character
(U+0020) — including lines whose only separators are tabs — yield
nothing. -/
theorem C2_hosts_extraction :
    (∀ ip name : List Char, ip ≠ [] →
      (∀ c ∈ ip, isSpaceChar c = false ∧ c ≠ '#') →
      name ≠ [] →
      (∀ c ∈ name, isSpaceChar c = false ∧ c ≠ '#') →
      extractName (ip ++ ' ' :: name) =
        if rejectName (name.map Char.toLower) then none
        else some (name.map Char.toLower)) ∧
    (∀ line : List Char, trimSpace line = [] → extractName line = none) ∧
    (∀ (line rest : List Char), trimSpace line = '#' :: rest → extractName line = none) ∧
    (∀ line : List Char, (∀ c ∈ trimSpace line, c ≠ ' ') → extractName line = none) ∧
    (∀ aName : List Char, rejectName aName = true ↔
      (aName = [] ∨ ("localhost").toList <:+ aName ∨
        ("localdomain").toList <:+ aName ∨ aName.length < 4)) := by
  refine ⟨extractName_structured, ?_, ?_, ?_, ?_⟩
  · intro line h
    simp only [extractName]
    rw [h]
    rfl
  · intro line rest h
    simp only [extractName]
    rw [h]
    simp
  · intro line h
    have hd : (trimSpace line).dropWhile (fun c => !(c == ' ')) = [] :=
      List.dropWhile_eq_nil_iff.mpr (fun x hx => by simp [h x hx])
    simp only [extractName]
    rw [hd]
    simp only [List.isEmpty_nil, if_true]
    split
    · rfl
    · split <;> rfl
  · intro aName
    simp [rejectName, List.isSuffixOf_iff_suffix, List.isEmpty_iff, Bool.or_eq_true,
      decide_eq_true_eq, or_assoc]

/-- Witness for C2 amended: a line whose token is 1.2.3.4 and whose
name is Ads.Example.com extracts to the lowercased ads.example.com. -/
theorem C2_hosts_extraction_witness :
    extractName (("1.2.3.4").toList ++ ' ' :: ("Ads.Example.com").toList) =
      some (("ads.example.com").toList) := by
  have h := C2_hosts_extraction.1 ("1.2.3.4").toList ("Ads.Example.com").toList
    (by decide) (by decide) (by decide) (by decide)
  rw [h]
  decide

/-! ## SystemMaintenance output suppression -/

/-- Auxiliary: when some marker is contained in the output, the marker
scan yields the replacement. -/
theorem suppressLoop_of_any : ∀ (markers : List String) (repl result : String),
    markers.any (fun m => goContains result m) = true →
    suppressLoop markers repl result = repl := by
  intro markers
  induction markers with
  | nil => intro repl result h; simp at h
  | cons m rest ih =>
    intro repl result h
    by_cases hm : goContains result m
    · simp [suppressLoop, hm]
    · have hr : rest.any (fun m => goContains result m) = true := by
        simpa [List.any_cons, hm] using h
      simp [suppressLoop, hm, ih repl result hr]

/-- Auxiliary: when no marker is contained in the output, the marker
scan leaves it unchanged. -/
theorem suppressLoop_of_none : ∀ (markers : List String) (repl result : String),
    markers.any (fun m => goContains result m) = false →
    suppressLoop markers repl result = result := by
  intro markers
  induction markers with
  | nil => intro repl result _; rfl
  | cons m rest ih =>
    intro repl result h
    rw [List.any_cons, Bool.or_eq_false_iff] at h
    simp [suppressLoop, h.1, ih repl result h.2]

/-- C6 counterexample: the per-package installation output
yum-prefixed Nothing to do contains a suppression marker, and the code
collapses it to the phrase Nothing to do, not to the word skipped. -/
theorem C6_counterexample :
    collapseInstallOutput "yum: Nothing to do." = "Nothing to do" ∧
    collapseInstallOutput "yum: Nothing to do." ≠ "skipped" := by
  constructor <;> decide

/-- C6 amended: a per-package installation output containing one of the
suppression markers collapses to the literal phrase Nothing to do — the
word skipped is what the system-upgrade output collapses to; output
containing no marker is kept verbatim in both places. -/
theorem C6_output_collapse :
    (∀ result : String,
      suppressOutputMarkers.any (fun m => goContains result m) = true →
      collapseInstallOutput result = "Nothing to do" ∧
        collapseUpgradeOutput result = "skipped") ∧
    (∀ result : String,
      suppressOutputMarkers.any (fun m => goContains result m) = false →
      collapseInstallOutput result = result ∧
        collapseUpgradeOutput result = result) := by
  constructor
  · intro result h
    exact ⟨suppressLoop_of_any _ _ _ h, suppressLoop_of_any _ _ _ h⟩
  · intro result h
    exact ⟨suppressLoop_of_none _ _ _ h, suppressLoop_of_none _ _ _ h⟩

/-- Witness for C6 amended at the output Unable to locate package foo. -/
theorem C6_output_collapse_witness :
    collapseInstallOutput "Unable to locate package foo" = "Nothing to do" ∧
    collapseUpgradeOutput "Unable to locate package foo" = "skipped" :=
  C6_output_collapse.1 "Unable to locate package foo" (by decide)

/-! ## Blacklist deduplication -/

/-- Auxiliary: membership after folding insertUnique. -/
theorem mem_foldl_insertUnique : ∀ (a : List (List Char)) (m : List (List Char)) (x : List Char),
    x ∈ a.foldl insertUnique m ↔ x ∈ m ∨ x ∈ a := by
  intro a
  induction a with
  | nil => intro m x; simp
  | cons s t ih =>
    intro m x
    rw [List.foldl_cons, ih]
    unfold insertUnique
    split
    · rename_i hs
      constructor
      · rintro (hx | hx)
        · exact Or.inl hx
        · exact Or.inr (by simp [hx])
      · rintro (hx | hx)
        · exact Or.inl hx
        · rcases List.mem_cons.mp hx with h | h
          · exact Or.inl (h ▸ hs)
          · exact Or.inr h
    · constructor
      · rintro (hx | hx)
        · rcases List.mem_append.mp hx with h | h
          · exact Or.inl h
          · exact Or.inr (by simp at h; simp [h])
        · exact Or.inr (by simp [hx])
      · rintro (hx | hx)
        · exact Or.inl (List.mem_append.mpr (Or.inl hx))
        · rcases List.mem_cons.mp hx with h | h
          · exact Or.inl (by simp [h])
          · exact Or.inr h

/-- Auxiliary: folding insertUnique preserves Nodup. -/
theorem nodup_foldl_insertUnique : ∀ (a : List (List Char)) (m : List (List Char)),
    m.Nodup → (a.foldl insertUnique m).Nodup := by
  intro a
  induction a with
  | nil => intro m hm; exact hm
  | cons s t ih =>
    intro m hm
    rw [List.foldl_cons]
    apply ih
    unfold insertUnique
    split
    · exact hm
    · rename_i hs
      simpa [List.nodup_append, hm] using hs

/-- Auxiliary: membership after folding insertArray. -/
theorem mem_foldl_insertArray :
    ∀ (arrays : List (Option (List (List Char)))) (m : List (List Char)) (x : List Char),
    x ∈ arrays.foldl insertArray m ↔ x ∈ m ∨ ∃ l, some l ∈ arrays ∧ x ∈ l := by
  intro arrays
  induction arrays with
  | nil => intro m x; simp
  | cons arr rest ih =>
    intro m x
    rw [List.foldl_cons, ih]
    match arr with
    | none =>
      show x ∈ m ∨ _ ↔ _
      constructor
      · rintro (hx | ⟨l, hl, hxl⟩)
        · exact Or.inl hx
        · exact Or.inr ⟨l, by simp [hl], hxl⟩
      · rintro (hx | ⟨l, hl, hxl⟩)
        · exact Or.inl hx
        · rcases List.mem_cons.mp hl with h | h
          · cases h
          · exact Or.inr ⟨l, h, hxl⟩
    | some a =>
      show x ∈ a.foldl insertUnique m ∨ _ ↔ _
      rw [mem_foldl_insertUnique]
      constructor
      · rintro ((hx | hx) | ⟨l, hl, hxl⟩)
        · exact Or.inl hx
        · exact Or.inr ⟨a, by simp, hx⟩
        · exact Or.inr ⟨l, by simp [hl], hxl⟩
      · rintro (hx | ⟨l, hl, hxl⟩)
        · exact Or.inl (Or.inl hx)
        · rcases List.mem_cons.mp hl with h | h
          · cases h; exact Or.inl (Or.inr hxl)
          · exact Or.inr ⟨l, h, hxl⟩

/-- Auxiliary: folding insertArray preserves Nodup. -/
theorem nodup_foldl_insertArray :
    ∀ (arrays : List (Option (List (List Char)))) (m : List (List Char)),
    m.Nodup → (arrays.foldl insertArray m).Nodup := by
  intro arrays
  induction arrays with
  | nil => intro m hm; exact hm
  | cons arr rest ih =>
    intro m hm
    rw [List.foldl_cons]
    apply ih
    match arr with
    | none => exact hm
    | some a => exact nodup_foldl_insertUnique a m hm

/-- C7: DownloadAllBlacklists equals the variant that parses each body
once; UniqueStrings skips nil arrays, contains no duplicates, and its
members are exactly the strings of the non-nil arrays; consequently the
blacklist is the deduplicated union of the names extracted from each
body, each distinct name appearing exactly once. -/
theorem C7_blacklist_union :
    (∀ bodies, DownloadAllBlacklists bodies = DownloadAllBlacklistsOnce bodies) ∧
    (∀ arrays, UniqueStrings (none :: arrays) = UniqueStrings arrays) ∧
    (∀ arrays, (UniqueStrings arrays).Nodup ∧
      ∀ x, x ∈ UniqueStrings arrays ↔ ∃ l, some l ∈ arrays ∧ x ∈ l) ∧
    (∀ bodies, (DownloadAllBlacklists bodies).Nodup ∧
      ∀ x, x ∈ DownloadAllBlacklists bodies ↔
        ∃ body ∈ bodies, x ∈ ExtractNamesFromHostsContent body) := by
  have hmain : ∀ arrays, (UniqueStrings arrays).Nodup ∧
      ∀ x, x ∈ UniqueStrings arrays ↔ ∃ l, some l ∈ arrays ∧ x ∈ l := by
    intro arrays
    constructor
    · exact nodup_foldl_insertArray arrays [] List.nodup_nil
    · intro x
      rw [UniqueStrings, mem_foldl_insertArray]
      simp
  refine ⟨fun bodies => rfl, fun arrays => rfl, hmain, ?_⟩
  intro bodies
  refine ⟨(hmain _).1, fun x => ?_⟩
  rw [DownloadAllBlacklists, (hmain _).2 x]
  constructor
  · rintro ⟨l, hl, hxl⟩
    rw [List.mem_map] at hl
    obtain ⟨body, hbody, hb⟩ := hl
    simp only at hb
    cases hb
    exact ⟨body, hbody, hxl⟩
  · rintro ⟨body, hbody, hx⟩
    exact ⟨ExtractNamesFromHostsContent body,
      List.mem_map.mpr ⟨body, hbody, rfl⟩, hx⟩

/-! ## FeatureSet.Initialise invariant -/

/-- Auxiliary: the loop of FeatureSet.Initialise only ever adds
configured features whose initialisation succeeded, whether it
completes or aborts on an error. -/
theorem initialiseFeatures_invariant :
    ∀ (pairs table : List (String × Feature)),
    (∀ p ∈ table, p.2.isConfigured = true ∧ p.2.initOK = true) →
    ∀ p ∈ (initialiseFeatures pairs table).1,
      p.2.isConfigured = true ∧ p.2.initOK = true := by
  intro pairs
  induction pairs with
  | nil => intro table htable; exact htable
  | cons pr rest ih =>
    intro table htable
    obtain ⟨t, f⟩ := pr
    show ∀ p ∈ (initialiseFeatures ((t, f) :: rest) table).1, _
    rw [initialiseFeatures]
    by_cases hconf : f.isConfigured = true
    · by_cases hinit : f.initOK = true
      · rw [if_pos hconf, if_pos hinit]
        apply ih
        intro p hp
        rw [mapInsert, List.mem_append] at hp
        rcases hp with hp | hp
        · exact htable p (List.mem_filter.mp hp).1
        · simp at hp
          rw [hp]
          exact ⟨hconf, hinit⟩
      · rw [if_pos hconf, if_neg hinit]
        exact htable
    · rw [if_neg hconf]
      exact ih table htable

/-- C9: every entry of the LookupByPrefix table built by
FeatureSet.Initialise — whether the call returned nil or aborted with
an error — maps a trigger to a feature that is configured and whose
initialisation returned nil. -/
theorem C9_lookup_table_invariant (prefixes : List (String × Feature))
    (t : String) (f : Feature)
    (hmem : (t, f) ∈ (FeatureSetInitialise prefixes).1) :
    f.isConfigured = true ∧ f.initOK = true :=
  initialiseFeatures_invariant prefixes [] (by simp) (t, f) hmem

/-- Witness for C9: a table built from one configured feature that
initialised fine and one unconfigured feature. -/
theorem C9_lookup_table_invariant_witness :
    (Feature.mk ".s" true true).isConfigured = true ∧
      (Feature.mk ".s" true true).initOK = true :=
  C9_lookup_table_invariant
    [(".s", Feature.mk ".s" true true), (".x", Feature.mk ".x" false true)]
    ".s" (Feature.mk ".s" true true) (by decide)

/-! ## runPortsCheck -/

/-- C10: on GCE or Azure no destination with port 25 is ever dialed,
so no such destination can occur among the failed ports; and a nil
CheckTCPPorts map yields no dials and a nil error. -/
theorem C10_port25_and_nil_map :
    (∀ (m : List (String × List Int)) (gce azure : Bool)
      (dialOK : String → Int → Bool) (host : String),
      (gce || azure) = true →
      ((host, 25) ∉ (runPortsCheck (some m) gce azure dialOK).1 ∧
        ∀ errs, (runPortsCheck (some m) gce azure dialOK).2 = some errs →
          (host, 25) ∉ errs)) ∧
    (∀ (gce azure : Bool) (dialOK : String → Int → Bool),
      runPortsCheck none gce azure dialOK = ([], none)) := by
  constructor
  · intro m gce azure dialOK host hcloud
    have hdial : (host, 25) ∉ (runPortsCheck (some m) gce azure dialOK).1 := by
      intro hmem
      simp only [runPortsCheck] at hmem
      rw [List.mem_flatMap] at hmem
      obtain ⟨hp, _, hin⟩ := hmem
      split at hin
      · simp at hin
      · rw [List.mem_filterMap] at hin
        obtain ⟨port, _, heq⟩ := hin
        split at heq
        · cases heq
        · rename_i hcond
          rw [Option.some_inj] at heq
          have hport : port = 25 := congrArg Prod.snd heq
          subst hport
          simp [hcloud] at hcond
    refine ⟨hdial, fun errs herrs hmem => ?_⟩
    apply hdial
    simp only [runPortsCheck] at herrs ⊢
    split at herrs
    · cases herrs
    · rw [Option.some_inj] at herrs
      subst herrs
      exact (List.mem_filter.mp hmem).1
  · intro gce azure dialOK
    rfl

/-- Witness for C10 on GCE with a single host mapped to port 25. -/
theorem C10_port25_and_nil_map_witness :
    ("mail.example.com", 25) ∉
      (runPortsCheck (some [("mail.example.com", [25])]) true false
        (fun _ _ => true)).1 :=
  (C10_port25_and_nil_map.1 [("mail.example.com", [25])] true false
    (fun _ _ => true) "mail.example.com" (by decide)).1

/-! ## Daemon.Execute report composition -/

/-- Auxiliary: containment is preserved by appending on the right. -/
theorem strContains_append_left (s t sub : String) (h : StrContains s sub) :
    StrContains (s ++ t) sub := by
  obtain ⟨u, v, huv⟩ := h
  exact ⟨u, v ++ t.data, by rw [String.data_append, ← huv]; simp⟩

/-- Auxiliary: containment is preserved by prepending on the left. -/
theorem strContains_append_right (s t sub : String) (h : StrContains t sub) :
    StrContains (s ++ t) sub := by
  obtain ⟨u, v, huv⟩ := h
  exact ⟨s.data ++ u, v, by rw [String.data_append, ← huv]; simp⟩

/-- C1: the allOK flag returned by Execute is true exactly when all
four checks returned nil; when the port check passed the report
contains the text Ports: OK, and when it failed the report contains the
text Port errors. -/
theorem C1_execute_report (portsErr featureErr mailCmdRunnerErr httpHandlersErr : Option String)
    (maintResult runtimeInfo latestStats warnings logs stacktraces : String) :
    ((ExecuteReport portsErr featureErr mailCmdRunnerErr httpHandlersErr
        maintResult runtimeInfo latestStats warnings logs stacktraces).2 = true ↔
      (portsErr = none ∧ featureErr = none ∧ mailCmdRunnerErr = none ∧
        httpHandlersErr = none)) ∧
    (portsErr = none →
      StrContains (ExecuteReport portsErr featureErr mailCmdRunnerErr httpHandlersErr
        maintResult runtimeInfo latestStats warnings logs stacktraces).1 "Ports: OK") ∧
    (∀ e, portsErr = some e →
      StrContains (ExecuteReport portsErr featureErr mailCmdRunnerErr httpHandlersErr
        maintResult runtimeInfo latestStats warnings logs stacktraces).1 "Port errors") := by
  refine ⟨?_, ?_, ?_⟩
  · simp [ExecuteReport, Bool.and_eq_true, Option.isNone_iff_eq_none, and_assoc]
  · intro hp
    subst hp
    show StrContains (_ ++ (portsSegment none ++ _)) _
    apply strContains_append_right
    apply strContains_append_left
    decide
  · intro e hp
    subst hp
    show StrContains (_ ++ (portsSegment (some e) ++ _)) _
    apply strContains_append_right
    apply strContains_append_left
    show StrContains ("\nPort errors: " ++ e ++ "\n") _
    apply strContains_append_left
    apply strContains_append_left
    decide

/-- Witness for C1: with all four checks nil the flag is true and the
report announces Ports: OK; with a failing port check the report
announces Port errors. -/
theorem C1_execute_report_witness :
    (ExecuteReport none none none none "m" "r" "s" "w" "l" "t").2 = true ∧
    StrContains (ExecuteReport none none none none "m" "r" "s" "w" "l" "t").1
      "Ports: OK" ∧
    StrContains (ExecuteReport (some "failed to connect to x:1") none none none
      "m" "r" "s" "w" "l" "t").1 "Port errors" :=
  ⟨(C1_execute_report none none none none "m" "r" "s" "w" "l" "t").1.mpr
      ⟨rfl, rfl, rfl, rfl⟩,
    (C1_execute_report none none none none "m" "r" "s" "w" "l" "t").2.1 rfl,
    (C1_execute_report (some "failed to connect to x:1") none none none
      "m" "r" "s" "w" "l" "t").2.2 "failed to connect to x:1" rfl⟩

end Laitos
